import Mathlib

/-!
Verification development for the simai repository (backend drivers for
external network-simulator binaries).

The definitions below are shallow embeddings of the Python source:

* association-list directory maps model directories on the real filesystem
  (a directory never holds two entries with the same name, which appears as
  `Nodup` hypotheses on the name lists);
* `place` models the shared result-materialization logic that appears inline
  at the end of `run_analytical` (src/simai/backends/analytical.py),
  `run_ns3` (src/simai/backends/ns3.py) and `run_m4`
  (src/simai/backends/m4.py): the empty-result warning branch, the file-like
  branch (primary selection, move, sibling moves) and the directory-like
  branch (delete-then-move loop);
* `find_binary` embeds src/simai/backends/binary.py;
* `runEnv` embeds the environment composition of `run_binary`;
* `convertTopology` embeds `_convert_topology` of src/simai/backends/m4.py,
  with the numeric float-to-string rendering abstracted as a parameter
  (the line-frame claims hold for every rendering);
* `analyticalCommand` embeds the GPU-count validation prefix of the CLI
  commands in src/simai/cli/simulate.py.
-/

/-! ## Association lists keyed by name (directory and environment maps) -/

/-- Lookup of the first binding of a name in an association list. -/
def lookupA {α : Type} : List (String × α) → String → Option α
  | [], _ => none
  | (k, v) :: rest, n => if k = n then some v else lookupA rest n

/-- Set a binding: replace the first existing binding of the name, or append
a fresh binding when the name is absent. -/
def setA {α : Type} : List (String × α) → String → α → List (String × α)
  | [], n, v => [(n, v)]
  | (k, w) :: rest, n, v =>
    if k = n then (n, v) :: rest else (k, w) :: setA rest n v

/-- Remove the first binding of a name, when present. -/
def removeA {α : Type} : List (String × α) → String → List (String × α)
  | [], _ => []
  | (k, w) :: rest, n => if k = n then rest else (k, w) :: removeA rest n

theorem lookupA_setA_self {α : Type} (d : List (String × α)) (n : String) (v : α) :
    lookupA (setA d n v) n = some v := by
  induction d with
  | nil => simp [setA, lookupA]
  | cons hd rest ih =>
    obtain ⟨k, w⟩ := hd
    by_cases h : k = n
    · simp [setA, lookupA, h]
    · simp [setA, lookupA, h, ih]

theorem lookupA_setA_ne {α : Type} (d : List (String × α)) (n m : String) (v : α)
    (h : m ≠ n) : lookupA (setA d n v) m = lookupA d m := by
  have hnm : ¬(n = m) := fun hh => h hh.symm
  induction d with
  | nil => simp [setA, lookupA, hnm]
  | cons hd rest ih =>
    obtain ⟨k, w⟩ := hd
    by_cases hk : k = n
    · subst hk
      have hkm : ¬(k = m) := fun hh => h hh.symm
      simp [setA, lookupA, hkm]
    · by_cases hm : k = m
      · subst hm
        simp [setA, lookupA, hk]
      · simp [setA, lookupA, hk, hm, ih]

theorem lookupA_removeA_ne {α : Type} (d : List (String × α)) (n m : String)
    (h : m ≠ n) : lookupA (removeA d n) m = lookupA d m := by
  induction d with
  | nil => simp [removeA]
  | cons hd rest ih =>
    obtain ⟨k, w⟩ := hd
    by_cases hk : k = n
    · subst hk
      have hkm : ¬(k = m) := fun hh => h hh.symm
      simp [removeA, lookupA, hkm]
    · by_cases hm : k = m
      · subst hm
        simp [removeA, lookupA, hk]
      · simp [removeA, lookupA, hk, hm, ih]

theorem lookupA_eq_none_of_not_mem {α : Type} (d : List (String × α)) (n : String)
    (h : n ∉ d.map Prod.fst) : lookupA d n = none := by
  induction d with
  | nil => simp [lookupA]
  | cons hd rest ih =>
    obtain ⟨k, w⟩ := hd
    simp only [List.map_cons, List.mem_cons] at h
    push_neg at h
    have hkn : ¬(k = n) := fun hh => h.1 hh.symm
    simp [lookupA, hkn, ih h.2]

theorem lookupA_removeA_self {α : Type} (d : List (String × α)) (n : String)
    (hnd : (d.map Prod.fst).Nodup) : lookupA (removeA d n) n = none := by
  induction d with
  | nil => simp [removeA, lookupA]
  | cons hd rest ih =>
    obtain ⟨k, w⟩ := hd
    simp only [List.map_cons, List.nodup_cons] at hnd
    by_cases hk : k = n
    · subst hk
      have hr : removeA ((k, w) :: rest) k = rest := by simp [removeA]
      rw [hr]
      exact lookupA_eq_none_of_not_mem rest k hnd.1
    · simp [removeA, lookupA, hk, ih hnd.2]

theorem mem_map_fst_setA {α : Type} (d : List (String × α)) (n m : String) (v : α) :
    m ∈ (setA d n v).map Prod.fst ↔ m ∈ d.map Prod.fst ∨ m = n := by
  induction d with
  | nil => simp [setA]
  | cons hd rest ih =>
    obtain ⟨k, w⟩ := hd
    by_cases hk : k = n
    · subst hk
      simp [setA]
      tauto
    · simp [setA, hk, ih]
      tauto

theorem nodup_setA {α : Type} (d : List (String × α)) (n : String) (v : α)
    (hnd : (d.map Prod.fst).Nodup) : ((setA d n v).map Prod.fst).Nodup := by
  induction d with
  | nil => simp [setA]
  | cons hd rest ih =>
    obtain ⟨k, w⟩ := hd
    simp only [List.map_cons, List.nodup_cons] at hnd
    by_cases hk : k = n
    · subst hk
      have hs : setA ((k, w) :: rest) k v = (k, v) :: rest := by simp [setA]
      rw [hs]
      simp only [List.map_cons, List.nodup_cons]
      exact ⟨hnd.1, hnd.2⟩
    · have hs : setA ((k, w) :: rest) n v = (k, w) :: setA rest n v := by
        simp [setA, hk]
      rw [hs]
      simp only [List.map_cons, List.nodup_cons]
      refine ⟨?_, ih hnd.2⟩
      intro hcontra
      rcases (mem_map_fst_setA rest n k v).1 hcontra with h | h
      · exact hnd.1 h
      · exact hk h

theorem removeA_sublist {α : Type} (d : List (String × α)) (n : String) :
    (removeA d n).Sublist d := by
  induction d with
  | nil => simp [removeA]
  | cons hd rest ih =>
    obtain ⟨k, w⟩ := hd
    by_cases hk : k = n
    · have hr : removeA ((k, w) :: rest) n = rest := by simp [removeA, hk]
      rw [hr]
      exact List.sublist_cons_self (k, w) rest
    · have hr : removeA ((k, w) :: rest) n = (k, w) :: removeA rest n := by
        simp [removeA, hk]
      rw [hr]
      exact ih.cons₂ (k, w)

theorem nodup_removeA {α : Type} (d : List (String × α)) (n : String)
    (hnd : (d.map Prod.fst).Nodup) : ((removeA d n).map Prod.fst).Nodup :=
  hnd.sublist ((removeA_sublist d n).map Prod.fst)

/-! ## Directory entries and the shutil.move model

A directory is a finite map from entry names to entries.  An entry is a
regular file with its content, or a subdirectory (contents irrelevant to
the claims; what matters is that a directory entry is not a file).
-/

/-- A directory entry: a regular file with its content, or a directory. -/
inductive Entry where
  | file (content : String)
  | dir
deriving DecidableEq, Repr

/-- A directory on disk: an association list from entry names to entries.
Real directories never repeat a name, which appears as Nodup hypotheses. -/
abbrev Dirmap := List (String × Entry)

/-- Model of Python shutil.move of the file with the given content to the
destination directory under name n: when the destination already holds a
directory named n, the file is moved inside that directory (the top-level
entry stays a directory); otherwise the destination entry becomes the moved
file, silently replacing an existing file of the same name. -/
def shutilMoveInto (d : Dirmap) (n : String) (content : String) : Dirmap :=
  match lookupA d n with
  | some Entry.dir => d
  | _ => setA d n (Entry.file content)

theorem lookupA_shutilMoveInto_self (d : Dirmap) (n : String) (c : String)
    (h : lookupA d n ≠ some Entry.dir) :
    lookupA (shutilMoveInto d n c) n = some (Entry.file c) := by
  unfold shutilMoveInto
  cases hl : lookupA d n with
  | none => simp [lookupA_setA_self]
  | some e =>
    cases e with
    | file s => simp [lookupA_setA_self]
    | dir => exact absurd hl h

theorem lookupA_shutilMoveInto_ne (d : Dirmap) (n m : String) (c : String)
    (h : m ≠ n) : lookupA (shutilMoveInto d n c) m = lookupA d m := by
  unfold shutilMoveInto
  cases hl : lookupA d n with
  | none => simp [lookupA_setA_ne d n m _ h]
  | some e =>
    cases e with
    | file s => simp [lookupA_setA_ne d n m _ h]
    | dir => rfl

theorem shutilMoveInto_dir_mono (d : Dirmap) (n m : String) (c : String)
    (h : lookupA (shutilMoveInto d n c) m = some Entry.dir) :
    lookupA d m = some Entry.dir := by
  by_cases hmn : m = n
  · subst hmn
    unfold shutilMoveInto at h
    cases hl : lookupA d m with
    | none =>
      rw [hl] at h
      simp [lookupA_setA_self] at h
    | some e =>
      cases e with
      | file s =>
        rw [hl] at h
        simp [lookupA_setA_self] at h
      | dir => rfl
  · rwa [lookupA_shutilMoveInto_ne d n m c hmn] at h

/-! ## The ResultMaterializer (the place logic shared by the three drivers) -/

/-- Python substring test: the pattern occurs somewhere inside the string
(models the in operator used by run_analytical on result filenames). -/
def containsSub (s pat : String) : Bool :=
  (List.range (s.data.length + 1)).any (fun i => pat.data.isPrefixOf (s.data.drop i))

/-- Primary-result selection of the file-like branch: the first result
whose filename contains the backend marker substring, when the backend
defines one (run_analytical uses marker EndToEnd), otherwise the first
result in enumeration order (run_ns3 and run_m4 take result_files[0]). -/
def pickPrimary (marker : Option String) (results : List (String × String)) :
    String × String :=
  match marker with
  | some m =>
    match results.find? (fun r => containsSub r.1 m) with
    | some r => r
    | none => results.headD ("", "")
  | none => results.headD ("", "")

/-- The sibling-move loop of the file-like branch: iterate over the
originally enumerated result files, and move each one that still exists in
the source directory (the primary was already moved away) to the target's
parent directory under its original filename.  The first argument tracks
which names still exist in the source results directory. -/
def moveRemaining : List String → List (String × String) → Dirmap → Dirmap
  | _, [], d => d
  | present, it :: rest, d =>
    if it.1 ∈ present then
      moveRemaining (present.erase it.1) rest (shutilMoveInto d it.1 it.2)
    else
      moveRemaining present rest d

/-- File-like placement: move the primary result to the target path (the
entry named targetName in the target's parent directory d), then run the
sibling-move loop over all result files. -/
def placeFileLike (marker : Option String) (results : List (String × String))
    (targetName : String) (d : Dirmap) : Dirmap :=
  let primary := pickPrimary marker results
  moveRemaining ((results.map Prod.fst).erase primary.1) results
    (shutilMoveInto d targetName primary.2)

/-- Directory-like placement: for each result file in enumeration order,
delete a same-named pre-existing destination entry first (unlink for a
file, recursive rmtree for a directory), then move the result file in. -/
def placeDirLike : List (String × String) → Dirmap → Dirmap
  | [], d => d
  | (n, c) :: rest, d =>
    let d1 :=
      match lookupA d n with
      | some _ => removeA d n
      | none => d
    placeDirLike rest (shutilMoveInto d1 n c)

/-- Observable outcome of the materialization step shared by the drivers:
whether the empty-result warning was printed, whether a directory at or
above the target was created (mkdir with parents), the final state of the
directory the target lives in, and the returned path. -/
structure PlaceOut where
  warned : Bool
  mkdirCalled : Bool
  fsDir : Dirmap
  ret : String
deriving DecidableEq, Repr

/-- The materialization logic at the tail of run_analytical, run_ns3 and
run_m4.  With no result files it warns and returns the target untouched;
otherwise the file-like flag (computed in the source as: the target has a
suffix and is not an existing directory) selects the file-like or the
directory-like branch.  For the file-like branch d is the target's parent
directory and targetName the target's filename; for the directory-like
branch d is the target directory itself and targetName is unused except as
the returned path. -/
def place (marker : Option String) (results : List (String × String))
    (fileLike : Bool) (targetName : String) (d : Dirmap) : PlaceOut :=
  if results.isEmpty then ⟨true, false, d, targetName⟩
  else if fileLike then ⟨false, true, placeFileLike marker results targetName d, targetName⟩
  else ⟨false, true, placeDirLike results d, targetName⟩

theorem moveRemaining_preserve (items : List (String × String)) :
    ∀ (present : List String) (d : Dirmap) (n : String),
      (∀ it ∈ items, it.1 ∈ present → it.1 ≠ n) →
      lookupA (moveRemaining present items d) n = lookupA d n := by
  induction items with
  | nil => intro present d n _; rfl
  | cons it rest ih =>
    intro present d n hn
    by_cases hp : it.1 ∈ present
    · have hne : it.1 ≠ n := hn it (List.mem_cons_self it rest) hp
      have hstep : lookupA (shutilMoveInto d it.1 it.2) n = lookupA d n :=
        lookupA_shutilMoveInto_ne d it.1 n it.2 (fun hh => hne hh.symm)
      calc lookupA (moveRemaining present (it :: rest) d) n
          = lookupA (moveRemaining (present.erase it.1) rest (shutilMoveInto d it.1 it.2)) n := by
            simp [moveRemaining, hp]
        _ = lookupA (shutilMoveInto d it.1 it.2) n := by
            refine ih (present.erase it.1) _ n ?_
            intro x hx hxp
            exact hn x (List.mem_cons_of_mem it hx) (List.mem_of_mem_erase hxp)
        _ = lookupA d n := hstep
    · calc lookupA (moveRemaining present (it :: rest) d) n
          = lookupA (moveRemaining present rest d) n := by simp [moveRemaining, hp]
        _ = lookupA d n := by
            refine ih present d n ?_
            intro x hx hxp
            exact hn x (List.mem_cons_of_mem it hx) hxp

theorem moveRemaining_sets (items : List (String × String)) :
    ∀ (present : List String) (d : Dirmap) (r : String × String),
      r ∈ items → r.1 ∈ present → (items.map Prod.fst).Nodup →
      lookupA d r.1 ≠ some Entry.dir →
      lookupA (moveRemaining present items d) r.1 = some (Entry.file r.2) := by
  induction items with
  | nil => intro _ _ r hr; exact absurd hr (List.not_mem_nil r)
  | cons it rest ih =>
    intro present d r hr hp hnd hdir
    simp only [List.map_cons, List.nodup_cons] at hnd
    rcases List.mem_cons.1 hr with hr1 | hr2
    · subst hr1
      have hbranch : moveRemaining present (r :: rest) d =
          moveRemaining (present.erase r.1) rest (shutilMoveInto d r.1 r.2) := by
        simp [moveRemaining, hp]
      rw [hbranch]
      have hself : lookupA (shutilMoveInto d r.1 r.2) r.1 = some (Entry.file r.2) :=
        lookupA_shutilMoveInto_self d r.1 r.2 hdir
      rw [moveRemaining_preserve rest (present.erase r.1) _ r.1 ?_]
      · exact hself
      · intro x hx _
        intro hxr
        exact hnd.1 (hxr ▸ List.mem_map_of_mem Prod.fst hx)
    · have hne : r.1 ≠ it.1 := by
        intro hh
        exact hnd.1 (hh ▸ List.mem_map_of_mem Prod.fst hr2)
      by_cases hpi : it.1 ∈ present
      · have hbranch : moveRemaining present (it :: rest) d =
            moveRemaining (present.erase it.1) rest (shutilMoveInto d it.1 it.2) := by
          simp [moveRemaining, hpi]
        rw [hbranch]
        refine ih (present.erase it.1) _ r hr2 ?_ hnd.2 ?_
        · exact (List.mem_erase_of_ne hne).2 hp
        · rw [lookupA_shutilMoveInto_ne d it.1 r.1 it.2 hne]
          exact hdir
      · have hbranch : moveRemaining present (it :: rest) d =
            moveRemaining present rest d := by
          simp [moveRemaining, hpi]
        rw [hbranch]
        exact ih present d r hr2 hp hnd.2 hdir

theorem pickPrimary_mem (marker : Option String) (results : List (String × String))
    (h : results ≠ []) : pickPrimary marker results ∈ results := by
  obtain ⟨r0, rest, rfl⟩ := List.exists_cons_of_ne_nil h
  cases marker with
  | none => simp [pickPrimary]
  | some m =>
    simp only [pickPrimary]
    cases hf : (r0 :: rest).find? (fun r => containsSub r.1 m) with
    | none => simp
    | some r => exact List.mem_of_find?_eq_some hf

theorem placeDirLike_preserve (rest : List (String × String)) :
    ∀ (d : Dirmap) (n : String), (∀ x ∈ rest, x.1 ≠ n) →
      lookupA (placeDirLike rest d) n = lookupA d n := by
  induction rest with
  | nil => intro d n _; rfl
  | cons it tl ih =>
    intro d n hn
    obtain ⟨m, c⟩ := it
    have hmn : m ≠ n := hn (m, c) (List.mem_cons_self (m, c) tl)
    have hnm : n ≠ m := fun hh => hmn hh.symm
    simp only [placeDirLike]
    rw [ih _ n (fun x hx => hn x (List.mem_cons_of_mem (m, c) hx))]
    rw [lookupA_shutilMoveInto_ne _ m n c hnm]
    cases hl : lookupA d m with
    | none => rfl
    | some e => simp [lookupA_removeA_ne d m n hnm]

theorem placeDirLike_sets (results : List (String × String)) :
    ∀ (d : Dirmap), (results.map Prod.fst).Nodup → (d.map Prod.fst).Nodup →
      ∀ r ∈ results, lookupA (placeDirLike results d) r.1 = some (Entry.file r.2) := by
  induction results with
  | nil => intro d _ _ r hr; exact absurd hr (List.not_mem_nil r)
  | cons it rest ih =>
    intro d hnr hnd r hr
    obtain ⟨n, c⟩ := it
    simp only [List.map_cons, List.nodup_cons] at hnr
    set d1 : Dirmap :=
      (match lookupA d n with
       | some _ => removeA d n
       | none => d) with hd1
    have hl1 : lookupA d1 n = none := by
      rw [hd1]
      cases hl : lookupA d n with
      | none => exact hl
      | some e => exact lookupA_removeA_self d n hnd
    have hnd1 : (d1.map Prod.fst).Nodup := by
      rw [hd1]
      cases hl : lookupA d n with
      | none => exact hnd
      | some e => exact nodup_removeA d n hnd
    have hmove : shutilMoveInto d1 n c = setA d1 n (Entry.file c) := by
      simp [shutilMoveInto, hl1]
    have hnd2 : ((shutilMoveInto d1 n c).map Prod.fst).Nodup := by
      rw [hmove]; exact nodup_setA d1 n (Entry.file c) hnd1
    have hstep : placeDirLike ((n, c) :: rest) d =
        placeDirLike rest (shutilMoveInto d1 n c) := by
      simp only [placeDirLike, hd1]
    rw [hstep]
    rcases List.mem_cons.1 hr with hr1 | hr2
    · subst hr1
      show lookupA (placeDirLike rest (shutilMoveInto d1 n c)) n = some (Entry.file c)
      rw [placeDirLike_preserve rest _ n ?_]
      · rw [lookupA_shutilMoveInto_self d1 n c (by rw [hl1]; intro hh; cases hh)]
      · intro x hx hxr
        exact hnr.1 (hxr ▸ List.mem_map_of_mem Prod.fst hx)
    · exact ih (shutilMoveInto d1 n c) hnr.2 hnd2 r hr2

/-- C1 counterexample: with result set a.csv (content AAA) and EndToEnd.csv
(content EEE) and the file-like target a.csv, the primary is EndToEnd.csv
with original content EEE, yet after placement the target holds AAA: the
sibling-move loop moves the non-primary a.csv onto the target path and
clobbers the already placed primary, so the claim that the target's content
always equals the primary's original content is false at this input. -/
theorem place_file_like_target_clobber_cex :
    pickPrimary (some "EndToEnd") [("a.csv", "AAA"), ("EndToEnd.csv", "EEE")] =
      ("EndToEnd.csv", "EEE") ∧
    ¬ lookupA (place (some "EndToEnd") [("a.csv", "AAA"), ("EndToEnd.csv", "EEE")]
        true "a.csv" []).fsDir "a.csv" =
      some (Entry.file "EEE") := by
  constructor
  · decide
  · decide

/-- C1 (amended): for every non-empty result set with distinct filenames and
every file-like output target, provided no non-primary result file has the
same filename as the target and no pre-existing entry of the target's parent
directory at the target's name or at a result's name is a directory, place
moves the primary result (first whose name contains the backend marker when
one is defined, else the first in enumeration order) to exactly the target
path, moves every remaining result into the target's parent under its
original filename, and afterwards the target's content equals the primary's
original content. -/
theorem place_file_like_amended (marker : Option String)
    (results : List (String × String)) (tn : String) (d : Dirmap)
    (hne : results ≠ [])
    (hnd : (results.map Prod.fst).Nodup)
    (hcol : ∀ r ∈ results, r.1 ≠ (pickPrimary marker results).1 → r.1 ≠ tn)
    (hT : lookupA d tn ≠ some Entry.dir)
    (hS : ∀ r ∈ results, lookupA d r.1 ≠ some Entry.dir) :
    (place marker results true tn d).warned = false ∧
    (place marker results true tn d).mkdirCalled = true ∧
    (place marker results true tn d).ret = tn ∧
    lookupA (place marker results true tn d).fsDir tn =
      some (Entry.file (pickPrimary marker results).2) ∧
    ∀ r ∈ results, r.1 ≠ (pickPrimary marker results).1 →
      lookupA (place marker results true tn d).fsDir r.1 = some (Entry.file r.2) := by
  have hplace : place marker results true tn d =
      ⟨false, true, placeFileLike marker results tn d, tn⟩ := by
    simp [place, List.isEmpty_iff, hne]
  rw [hplace]
  have hprimmem : pickPrimary marker results ∈ results := pickPrimary_mem marker results hne
  refine ⟨rfl, rfl, rfl, ?_, ?_⟩
  · show lookupA (placeFileLike marker results tn d) tn =
      some (Entry.file (pickPrimary marker results).2)
    unfold placeFileLike
    rw [moveRemaining_preserve results _ _ tn ?_]
    · exact lookupA_shutilMoveInto_self d tn (pickPrimary marker results).2 hT
    · intro it hit hitp
      refine hcol it hit ?_
      exact ((hnd.mem_erase_iff).1 hitp).1
  · intro r hr hrprim
    show lookupA (placeFileLike marker results tn d) r.1 = some (Entry.file r.2)
    unfold placeFileLike
    refine moveRemaining_sets results _ _ r hr ?_ hnd ?_
    · exact (hnd.mem_erase_iff).2 ⟨hrprim, List.mem_map_of_mem Prod.fst hr⟩
    · rw [lookupA_shutilMoveInto_ne d tn r.1 _ (hcol r hr hrprim)]
      exact hS r hr

/-- C1 witness: a concrete instantiation of the amended theorem with two
result files and no filename collision with the target. -/
theorem place_file_like_amended_witness :
    (([("EndToEnd.csv", "EEE"), ("Detailed.csv", "DDD")] : List (String × String)) ≠ [] ∧
      (([("EndToEnd.csv", "EEE"), ("Detailed.csv", "DDD")] :
        List (String × String)).map Prod.fst).Nodup) ∧
    lookupA (place (some "EndToEnd") [("EndToEnd.csv", "EEE"), ("Detailed.csv", "DDD")]
        true "report.csv" []).fsDir "report.csv" =
      some (Entry.file "EEE") ∧
    lookupA (place (some "EndToEnd") [("EndToEnd.csv", "EEE"), ("Detailed.csv", "DDD")]
        true "report.csv" []).fsDir "Detailed.csv" =
      some (Entry.file "DDD") := by
  have h := place_file_like_amended (some "EndToEnd")
    [("EndToEnd.csv", "EEE"), ("Detailed.csv", "DDD")] "report.csv" []
    (by decide) (by decide) (by decide) (by decide) (by decide)
  refine ⟨⟨by decide, by decide⟩, ?_, ?_⟩
  · have := h.2.2.2.1
    rwa [show pickPrimary (some "EndToEnd")
        [("EndToEnd.csv", "EEE"), ("Detailed.csv", "DDD")] =
        ("EndToEnd.csv", "EEE") from by decide] at this
  · exact h.2.2.2.2 ("Detailed.csv", "DDD") (by decide) (by decide)

/-- C2: for every non-empty result set with distinct filenames and every
directory-like output target (an existing directory with distinct entry
names), after place every result-set name exists under the target as a file
with its original content, fully replacing any pre-existing same-named
entry, whether that entry was a file or a directory. -/
theorem place_dir_like_overwrites (marker : Option String)
    (results : List (String × String)) (tn : String) (d : Dirmap)
    (hne : results ≠ [])
    (hnr : (results.map Prod.fst).Nodup)
    (hnd : (d.map Prod.fst).Nodup) :
    (place marker results false tn d).warned = false ∧
    (place marker results false tn d).mkdirCalled = true ∧
    ∀ r ∈ results,
      lookupA (place marker results false tn d).fsDir r.1 = some (Entry.file r.2) := by
  have hplace : place marker results false tn d =
      ⟨false, true, placeDirLike results d, tn⟩ := by
    simp [place, List.isEmpty_iff, hne]
  rw [hplace]
  exact ⟨rfl, rfl, placeDirLike_sets results d hnr hnd⟩

/-- C2 witness: a concrete instantiation where the destination directory
already holds a same-named directory entry and a same-named stale file;
both are fully replaced by the fresh result contents. -/
theorem place_dir_like_overwrites_witness :
    (([("x.csv", "NEW"), ("y.csv", "YYY")] : List (String × String)) ≠ [] ∧
      (([("x.csv", "NEW"), ("y.csv", "YYY")] : List (String × String)).map Prod.fst).Nodup ∧
      (([("x.csv", Entry.dir), ("y.csv", Entry.file "stale")] : Dirmap).map Prod.fst).Nodup) ∧
    lookupA (place none [("x.csv", "NEW"), ("y.csv", "YYY")] false "out"
        [("x.csv", Entry.dir), ("y.csv", Entry.file "stale")]).fsDir "x.csv" =
      some (Entry.file "NEW") ∧
    lookupA (place none [("x.csv", "NEW"), ("y.csv", "YYY")] false "out"
        [("x.csv", Entry.dir), ("y.csv", Entry.file "stale")]).fsDir "y.csv" =
      some (Entry.file "YYY") := by
  have h := place_dir_like_overwrites none [("x.csv", "NEW"), ("y.csv", "YYY")] "out"
    [("x.csv", Entry.dir), ("y.csv", Entry.file "stale")]
    (by decide) (by decide) (by decide)
  exact ⟨⟨by decide, by decide, by decide⟩,
    h.2.2 ("x.csv", "NEW") (by decide), h.2.2 ("y.csv", "YYY") (by decide)⟩

/-- C5: for every output target (either classification) and an empty result
set, place emits the warning, performs no mkdir, leaves the directory state
at the target unchanged, and returns the target unchanged, completing
successfully. -/
theorem place_empty_results_no_op (marker : Option String) (fileLike : Bool)
    (tn : String) (d : Dirmap) :
    place marker [] fileLike tn d = ⟨true, false, d, tn⟩ := rfl

/-! ## The BinaryResolver (find_binary of src/simai/backends/binary.py) -/

/-- Ambient system state seen by find_binary: which paths are regular files,
the value of the SIMAI_BIN_PATH environment variable, and what
shutil.which finds on the executable search PATH. -/
structure SysEnv where
  isFile : String → Bool
  simaiBinPath : Option String
  which : String → Option String

/-- Failure of the resolver, modelling the FileNotFoundError raised with
remediation text when no candidate exists. -/
inductive FindError where
  | notFound (name : String)
deriving DecidableEq, Repr

/-- The path of the binary bundled with the installed package, under the
fixed internal subdirectory simai/_binaries/. -/
def bundledPath (pkgDir name : String) : String :=
  pkgDir ++ "/_binaries/" ++ name

/-- Embedding of find_binary: try the bundled binary, then the file named
name inside the SIMAI_BIN_PATH directory, then the PATH lookup, and fail
with notFound when no candidate exists. -/
def find_binary (e : SysEnv) (pkgDir name : String) : Except FindError String :=
  if e.isFile (bundledPath pkgDir name) then
    Except.ok (bundledPath pkgDir name)
  else
    let envCand : Option String :=
      match e.simaiBinPath with
      | some p => if e.isFile (p ++ "/" ++ name) then some (p ++ "/" ++ name) else none
      | none => none
    match envCand with
    | some c => Except.ok c
    | none =>
      match e.which name with
      | some f => Except.ok f
      | none => Except.error (FindError.notFound name)

/-- C4: find_binary returns the bundled binary when it exists as a file (so
it is preferred even when the environment-override and PATH candidates
exist simultaneously); otherwise the binary inside the SIMAI_BIN_PATH
directory when that exists; otherwise the PATH binary; and when no
candidate exists it fails with notFound. -/
theorem find_binary_search_order (e : SysEnv) (pkgDir name : String) :
    (e.isFile (bundledPath pkgDir name) = true →
      find_binary e pkgDir name = Except.ok (bundledPath pkgDir name)) ∧
    (∀ p, e.isFile (bundledPath pkgDir name) = false → e.simaiBinPath = some p →
      e.isFile (p ++ "/" ++ name) = true →
      find_binary e pkgDir name = Except.ok (p ++ "/" ++ name)) ∧
    (∀ f, e.isFile (bundledPath pkgDir name) = false →
      (∀ p, e.simaiBinPath = some p → e.isFile (p ++ "/" ++ name) = false) →
      e.which name = some f →
      find_binary e pkgDir name = Except.ok f) ∧
    (e.isFile (bundledPath pkgDir name) = false →
      (∀ p, e.simaiBinPath = some p → e.isFile (p ++ "/" ++ name) = false) →
      e.which name = none →
      find_binary e pkgDir name = Except.error (FindError.notFound name)) := by
  refine ⟨?_, ?_, ?_, ?_⟩
  · intro hb
    simp [find_binary, hb]
  · intro p hb hp hf
    simp [find_binary, hb, hp, hf]
  · intro f hb hp hw
    cases he : e.simaiBinPath with
    | none => simp [find_binary, hb, he, hw]
    | some p => simp [find_binary, hb, he, hp p he, hw]
  · intro hb hp hw
    cases he : e.simaiBinPath with
    | none => simp [find_binary, hb, he, hw]
    | some p => simp [find_binary, hb, he, hp p he, hw]

/-- C4 witness: with three stub environments.  In the first all three
candidates exist simultaneously and the bundled binary wins; in the second
only the env-override and PATH candidates exist and the override wins; in
the third nothing exists and the resolver fails with notFound. -/
theorem find_binary_search_order_witness :
    ((fun _ => true : String → Bool) (bundledPath "simai" "SimAI_analytical") = true ∧
      find_binary ⟨fun _ => true, some "/opt/bin", fun _ => some "/usr/bin/SimAI_analytical"⟩
        "simai" "SimAI_analytical" = Except.ok (bundledPath "simai" "SimAI_analytical")) ∧
    (find_binary ⟨fun s => s = "/opt/bin/SimAI_analytical",
        some "/opt/bin", fun _ => some "/usr/bin/SimAI_analytical"⟩
        "simai" "SimAI_analytical" = Except.ok ("/opt/bin" ++ "/" ++ "SimAI_analytical")) ∧
    (find_binary ⟨fun _ => false, none, fun _ => none⟩ "simai" "SimAI_analytical" =
      Except.error (FindError.notFound "SimAI_analytical")) := by
  refine ⟨⟨rfl, ?_⟩, ?_, ?_⟩
  · exact (find_binary_search_order
      ⟨fun _ => true, some "/opt/bin", fun _ => some "/usr/bin/SimAI_analytical"⟩
      "simai" "SimAI_analytical").1 rfl
  · exact (find_binary_search_order
      ⟨fun s => s = "/opt/bin/SimAI_analytical", some "/opt/bin",
        fun _ => some "/usr/bin/SimAI_analytical"⟩
      "simai" "SimAI_analytical").2.1 "/opt/bin" (by decide) rfl (by decide)
  · exact (find_binary_search_order ⟨fun _ => false, none, fun _ => none⟩
      "simai" "SimAI_analytical").2.2.2 rfl (fun p hp => by cases hp) rfl

/-! ## The ProcessRunner environment composition (run_binary) -/

/-- Embedding of the environment composition of run_binary: copy the full
inherited process environment, then update it with each override in order
(Python dict.update on the os.environ copy). -/
def composeEnv (inherited overrides : List (String × String)) :
    List (String × String) :=
  overrides.foldl (fun acc kv => setA acc kv.1 kv.2) inherited

/-- Embedding of the env handling in run_binary: with no overrides (env is
None or the empty dict, which is falsy) the child receives the inherited
environment unchanged; otherwise the inherited environment updated with the
overrides. -/
def runEnv (inherited : List (String × String))
    (env : Option (List (String × String))) : List (String × String) :=
  match env with
  | none => inherited
  | some ov => if ov.isEmpty then inherited else composeEnv inherited ov

theorem composeEnv_not_mem (overrides : List (String × String)) :
    ∀ (inherited : List (String × String)) (k : String),
      k ∉ overrides.map Prod.fst →
      lookupA (composeEnv inherited overrides) k = lookupA inherited k := by
  induction overrides with
  | nil => intro inherited k _; rfl
  | cons kv rest ih =>
    intro inherited k hk
    simp only [List.map_cons, List.mem_cons] at hk
    push_neg at hk
    have hstep : composeEnv inherited (kv :: rest) =
        composeEnv (setA inherited kv.1 kv.2) rest := rfl
    rw [hstep, ih _ k hk.2, lookupA_setA_ne inherited kv.1 k kv.2 hk.1]

theorem composeEnv_mem (overrides : List (String × String)) :
    ∀ (inherited : List (String × String)) (kv : String × String),
      kv ∈ overrides → (overrides.map Prod.fst).Nodup →
      lookupA (composeEnv inherited overrides) kv.1 = some kv.2 := by
  induction overrides with
  | nil => intro _ kv hkv; exact absurd hkv (List.not_mem_nil kv)
  | cons hd rest ih =>
    intro inherited kv hkv hnd
    simp only [List.map_cons, List.nodup_cons] at hnd
    have hstep : composeEnv inherited (hd :: rest) =
        composeEnv (setA inherited hd.1 hd.2) rest := rfl
    rw [hstep]
    rcases List.mem_cons.1 hkv with h1 | h2
    · subst h1
      rw [composeEnv_not_mem rest _ kv.1 hnd.1]
      exact lookupA_setA_self inherited kv.1 kv.2
    · exact ih _ kv h2 hnd.2

/-- C9: the environment passed to the child process equals the caller's full
inherited environment overlaid with the overrides: every override variable
takes exactly its override value, and every inherited variable not named in
the overrides passes through unchanged, so the environment is never
narrowed. -/
theorem runEnv_overlay (inherited overrides : List (String × String))
    (hnd : (overrides.map Prod.fst).Nodup) :
    (∀ kv ∈ overrides,
      lookupA (runEnv inherited (some overrides)) kv.1 = some kv.2) ∧
    (∀ k, k ∉ overrides.map Prod.fst →
      lookupA (runEnv inherited (some overrides)) k = lookupA inherited k) := by
  cases overrides with
  | nil =>
    refine ⟨fun kv hkv => absurd hkv (List.not_mem_nil kv), fun k _ => rfl⟩
  | cons hd rest =>
    have hrun : runEnv inherited (some (hd :: rest)) = composeEnv inherited (hd :: rest) := rfl
    constructor
    · intro kv hkv
      rw [hrun]
      exact composeEnv_mem (hd :: rest) inherited kv hkv hnd
    · intro k hk
      rw [hrun]
      exact composeEnv_not_mem (hd :: rest) inherited k hk

/-- C9 witness: a concrete inherited environment with an override that
replaces PATH, an override that adds AS_LOG_LEVEL, and the untouched HOME
variable passing through. -/
theorem runEnv_overlay_witness :
    ((([("AS_LOG_LEVEL", "0"), ("PATH", "/opt")] : List (String × String)).map
      Prod.fst).Nodup) ∧
    lookupA (runEnv [("PATH", "/usr/bin"), ("HOME", "/root")]
      (some [("AS_LOG_LEVEL", "0"), ("PATH", "/opt")])) "AS_LOG_LEVEL" = some "0" ∧
    lookupA (runEnv [("PATH", "/usr/bin"), ("HOME", "/root")]
      (some [("AS_LOG_LEVEL", "0"), ("PATH", "/opt")])) "PATH" = some "/opt" ∧
    lookupA (runEnv [("PATH", "/usr/bin"), ("HOME", "/root")]
      (some [("AS_LOG_LEVEL", "0"), ("PATH", "/opt")])) "HOME" =
      lookupA [("PATH", "/usr/bin"), ("HOME", "/root")] "HOME" := by
  have h := runEnv_overlay [("PATH", "/usr/bin"), ("HOME", "/root")]
    [("AS_LOG_LEVEL", "0"), ("PATH", "/opt")] (by decide)
  exact ⟨by decide, h.1 ("AS_LOG_LEVEL", "0") (by decide),
    h.1 ("PATH", "/opt") (by decide), h.2 "HOME" (by decide)⟩

/-! ## GPU-count validation in the CLI (src/simai/cli/simulate.py) -/

/-- List of characters, the representation used for Python text lines. -/
abbrev Chars := List Char

/-- Python whitespace (also the character class of the regex token for
whitespace): space, tab, newline, carriage return, vertical tab, form
feed. -/
def isPyWs (c : Char) : Bool :=
  c = ' ' || c = '\t' || c = '\n' || c = '\r' || c = '\x0b' || c = '\x0c'

/-- Numeric value of a run of decimal digit characters. -/
def natOfDigits (ds : Chars) : Nat :=
  ds.foldl (fun n c => 10 * n + (c.toNat - '0'.toNat)) 0

/-- Try to match the regex all_gpus:\s*(\d+) at the head of the text:
the literal token, then greedily skipped whitespace, then at least one
digit captured greedily.  Backtracking cannot help here since whitespace
and digits are disjoint, so greedy matching is exact. -/
def matchAllGpusAt (cs : Chars) : Option Nat :=
  let pat : Chars := "all_gpus:".data
  if pat.isPrefixOf cs then
    let ds := ((cs.drop pat.length).dropWhile isPyWs).takeWhile Char.isDigit
    if ds.isEmpty then none else some (natOfDigits ds)
  else none

/-- Leftmost regex search of all_gpus:\s*(\d+) in a line (re.search). -/
def findAllGpus : Chars → Option Nat
  | [] => none
  | c :: cs =>
    match matchAllGpusAt (c :: cs) with
    | some n => some n
    | none => findAllGpus cs

/-- Embedding of _parse_workload_gpu_count: scan the workload lines in
order; return the first regex match; stop (returning none) right after the
first line that does not start with the comment character. -/
def parseWorkloadGpuCount : List Chars → Option Nat
  | [] => none
  | l :: ls =>
    match findAllGpus l with
    | some n => some n
    | none => if l.head? = some '#' then parseWorkloadGpuCount ls else none

/-- Rejection of an invocation before a backend run, modelling
typer.BadParameter (the InvalidInput class of the error taxonomy).  The
gpuMismatch constructor carries the two counts printed in the message
"GPU count mismatch: workload has {w} GPUs but topology has {t} GPUs." -/
inductive CliError where
  | gpuMismatch (workloadGpus topologyGpus : Nat)
deriving DecidableEq, Repr

/-- Embedding of _validate_gpu_count: when both the workload header count
and the topology metadata count are present and differ, reject with the
mismatch error; otherwise succeed. -/
def validateGpuCount (workloadLines : List Chars) (topoGpus : Option Nat) :
    Except CliError Unit :=
  match parseWorkloadGpuCount workloadLines, topoGpus with
  | some w, some t =>
    if w ≠ t then Except.error (CliError.gpuMismatch w t) else Except.ok ()
  | _, _ => Except.ok ()

/-- Ordered side effects a backend command performs after validation
succeeds: first the Sandbox (temporary working directory) is created, then
the external process is spawned. -/
inductive RunEffect where
  | createSandbox
  | spawnProcess
deriving DecidableEq, Repr

/-- Embedding of the control flow of the analytical CLI command (the ns3
command is identical in this prefix): after reading the topology metadata,
validate the GPU counts; only on success does the command proceed to the
backend run, whose effect trace creates the sandbox and then spawns the
process.  An error therefore happens before any sandbox exists. -/
def analyticalCommand (workloadLines : List Chars) (topoGpus : Option Nat) :
    Except CliError (List RunEffect) :=
  match validateGpuCount workloadLines topoGpus with
  | Except.error e => Except.error e
  | Except.ok () => Except.ok [RunEffect.createSandbox, RunEffect.spawnProcess]

/-- C6: whenever the workload header declares a GPU count and the topology
metadata declares num_gpus, and the two differ, the invocation is rejected
with the InvalidInput mismatch error and produces no effect trace: no
sandbox is created and no process is spawned. -/
theorem gpu_mismatch_rejected_before_sandbox (workloadLines : List Chars)
    (w t : Nat) (hw : parseWorkloadGpuCount workloadLines = some w)
    (hne : w ≠ t) :
    analyticalCommand workloadLines (some t) =
      Except.error (CliError.gpuMismatch w t) := by
  simp [analyticalCommand, validateGpuCount, hw, hne]

/-- C6 witness: a workload whose header line declares all_gpus: 8 against a
topology metadata num_gpus of 4 is rejected with the mismatch error. -/
theorem gpu_mismatch_rejected_before_sandbox_witness :
    parseWorkloadGpuCount ["all_gpus: 8\n".data] = some 8 ∧ (8 : Nat) ≠ 4 ∧
    analyticalCommand ["all_gpus: 8\n".data] (some 4) =
      Except.error (CliError.gpuMismatch 8 4) :=
  ⟨by decide, by decide,
    gpu_mismatch_rejected_before_sandbox ["all_gpus: 8\n".data] 8 4 (by decide) (by decide)⟩

/-! ## The Topology Unit Converter (convert_topology of src/simai/backends/m4.py)

The converter is embedded line by line over lists of characters.  The
composite numeric conversion (Python float parsing of a field, the division
by 1e9 or multiplication by 1e3, and the %g rendering) is abstracted as the
two rendering parameters: the line-frame claims proved below hold for every
rendering, hence in particular for the one the binary uses. -/

/-- Python str.strip(): drop leading and trailing whitespace. -/
def pyStrip (cs : Chars) : Chars :=
  ((cs.dropWhile isPyWs).reverse.dropWhile isPyWs).reverse

/-- Helper for pyWords: ordinary split-on-whitespace-runs with the
characters of the word currently being read accumulated in reverse. -/
def wordsAux : Chars → Chars → List Chars
  | cur, [] => if cur.isEmpty then [] else [cur.reverse]
  | cur, c :: cs =>
    if isPyWs c then
      if cur.isEmpty then wordsAux [] cs else cur.reverse :: wordsAux [] cs
    else wordsAux (c :: cur) cs

/-- Python str.split() with no separator argument: split on runs of
whitespace, discarding empty fields. -/
def pyWords (cs : Chars) : List Chars := wordsAux [] cs

/-- One line of the converter: line indices 0 and 1 pass through unchanged;
a later line is stripped and split, passes through unchanged when it has
fewer than 5 fields, and otherwise is rewritten as the first two fields,
the rendered bandwidth with the Gbps unit, the rendered latency with the
ms unit, and the fifth field, single-space separated and newline
terminated.  Fields beyond the fifth are dropped. -/
def convertLine (renderBw renderLat : Chars → Chars) (i : Nat) (line : Chars) :
    Chars :=
  if i < 2 then line
  else
    let parts := pyWords (pyStrip line)
    if parts.length < 5 then line
    else
      parts.getD 0 [] ++ ' ' :: parts.getD 1 [] ++ ' ' ::
        renderBw (parts.getD 2 []) ++ "Gbps".data ++ ' ' ::
        renderLat (parts.getD 3 []) ++ "ms".data ++ ' ' ::
        parts.getD 4 [] ++ ['\n']

/-- The enumerate loop of the converter, carrying the line index. -/
def convertFrom (renderBw renderLat : Chars → Chars) : Nat → List Chars → List Chars
  | _, [] => []
  | i, l :: ls => convertLine renderBw renderLat i l :: convertFrom renderBw renderLat (i + 1) ls

/-- Embedding of convert_topology: the list of strings written to the
output file, one write per input line. -/
def convertTopology (renderBw renderLat : Chars → Chars) (lines : List Chars) :
    List Chars :=
  convertFrom renderBw renderLat 0 lines

theorem convertFrom_getElem (renderBw renderLat : Chars → Chars)
    (lines : List Chars) :
    ∀ (j i : Nat), (convertFrom renderBw renderLat j lines)[i]? =
      (lines[i]?).map (fun l => convertLine renderBw renderLat (j + i) l) := by
  induction lines with
  | nil => intro j i; simp [convertFrom]
  | cons l ls ih =>
    intro j i
    cases i with
    | zero => simp [convertFrom]
    | succ i' =>
      simp only [convertFrom, List.getElem?_cons_succ, ih (j + 1) i']
      have : j + 1 + i' = j + (i' + 1) := by omega
      rw [this]

/-- C8: the converter emits lines 0 and 1 byte-identical to the input, and
emits every subsequent line with fewer than 5 whitespace-separated fields
byte-identical to the input, for every numeric rendering. -/
theorem convert_topology_passthrough (renderBw renderLat : Chars → Chars)
    (lines : List Chars) (i : Nat) (line : Chars)
    (hline : lines[i]? = some line)
    (hcase : i < 2 ∨ (pyWords (pyStrip line)).length < 5) :
    (convertTopology renderBw renderLat lines)[i]? = some line := by
  unfold convertTopology
  rw [convertFrom_getElem renderBw renderLat lines 0 i, hline]
  simp only [Option.map_some, Option.some.injEq, Nat.zero_add]
  rcases hcase with h2 | h5
  · simp [convertLine, h2]
  · by_cases h2 : i < 2
    · simp [convertLine, h2]
    · simp [convertLine, h2, h5]

/-- C8 witness: a three-line topology file whose third line has only two
fields; the header lines and the short line all pass through unchanged. -/
theorem convert_topology_passthrough_witness :
    ((["8 nodes\n".data, "4 5 6 7\n".data, "trailer x\n".data] :
        List Chars)[2]? = some ("trailer x\n".data) ∧
      (pyWords (pyStrip ("trailer x\n".data))).length < 5) ∧
    (convertTopology (fun cs => cs) (fun cs => cs)
      ["8 nodes\n".data, "4 5 6 7\n".data, "trailer x\n".data])[2]? =
      some ("trailer x\n".data) :=
  ⟨⟨by decide, by decide⟩,
    convert_topology_passthrough (fun cs => cs) (fun cs => cs)
      ["8 nodes\n".data, "4 5 6 7\n".data, "trailer x\n".data] 2 ("trailer x\n".data)
      (by decide) (Or.inr (by decide))⟩

theorem wordsAux_nonws_append (t : Chars) (hw : ∀ c ∈ t, isPyWs c = false) :
    ∀ (cur rest : Chars), wordsAux cur (t ++ rest) = wordsAux (t.reverse ++ cur) rest := by
  induction t with
  | nil => intro cur rest; simp
  | cons c t' ih =>
    intro cur rest
    have hc : isPyWs c = false := hw c (List.mem_cons_self c t')
    have ht' : ∀ x ∈ t', isPyWs x = false := fun x hx => hw x (List.mem_cons_of_mem c hx)
    calc wordsAux cur ((c :: t') ++ rest)
        = wordsAux (c :: cur) (t' ++ rest) := by simp [wordsAux, hc]
      _ = wordsAux (t'.reverse ++ (c :: cur)) rest := ih ht' (c :: cur) rest
      _ = wordsAux ((c :: t').reverse ++ cur) rest := by
          simp [List.reverse_cons, List.append_assoc]

theorem pyWords_sep (t rest : Chars) (ht : t ≠ [])
    (hw : ∀ c ∈ t, isPyWs c = false) :
    pyWords (t ++ ' ' :: rest) = t :: pyWords rest := by
  unfold pyWords
  rw [wordsAux_nonws_append t hw [] (' ' :: rest)]
  have hne : t.reverse.isEmpty = false := by
    simp [List.isEmpty_iff, ht]
  simp [wordsAux, hne, isPyWs]

theorem pyWords_newline_end (t : Chars) (ht : t ≠ [])
    (hw : ∀ c ∈ t, isPyWs c = false) :
    pyWords (t ++ ['\n']) = [t] := by
  unfold pyWords
  rw [wordsAux_nonws_append t hw [] ['\n']]
  have hne : t.reverse.isEmpty = false := by
    simp [List.isEmpty_iff, ht]
  simp [wordsAux, hne, isPyWs]

theorem wordsAux_token_props (cs : Chars) :
    ∀ (cur : Chars), (∀ c ∈ cur, isPyWs c = false) →
      ∀ t ∈ wordsAux cur cs, t ≠ [] ∧ ∀ c ∈ t, isPyWs c = false := by
  induction cs with
  | nil =>
    intro cur hcur t ht
    by_cases hemp : cur.isEmpty
    · simp [wordsAux, hemp] at ht
    · rw [show wordsAux cur [] = [cur.reverse] from by simp [wordsAux, hemp]] at ht
      rcases List.mem_singleton.1 ht with rfl
      refine ⟨?_, ?_⟩
      · simp only [ne_eq, List.reverse_eq_nil_iff]
        simpa [List.isEmpty_iff] using hemp
      · intro c hc
        exact hcur c (List.mem_reverse.1 hc)
  | cons c cs' ih =>
    intro cur hcur t ht
    by_cases hc : isPyWs c
    · by_cases hemp : cur.isEmpty
      · rw [show wordsAux cur (c :: cs') = wordsAux [] cs' from by
          simp [wordsAux, hc, hemp]] at ht
        exact ih [] (by intro x hx; cases hx) t ht
      · rw [show wordsAux cur (c :: cs') = cur.reverse :: wordsAux [] cs' from by
          simp [wordsAux, hc, hemp]] at ht
        rcases List.mem_cons.1 ht with ht1 | ht2
        · rcases ht1 with rfl
          refine ⟨?_, ?_⟩
          · simp only [ne_eq, List.reverse_eq_nil_iff]
            simpa [List.isEmpty_iff] using hemp
          · intro x hx
            exact hcur x (List.mem_reverse.1 hx)
        · exact ih [] (by intro x hx; cases hx) t ht2
    · rw [show wordsAux cur (c :: cs') = wordsAux (c :: cur) cs' from by
        simp [wordsAux, hc]] at ht
      refine ih (c :: cur) ?_ t ht
      intro x hx
      rcases List.mem_cons.1 hx with h1 | h2
      · rcases h1 with rfl
        simpa using hc
      · exact hcur x h2

theorem pyWords_token_props (cs : Chars) (t : Chars) (ht : t ∈ pyWords cs) :
    t ≠ [] ∧ ∀ c ∈ t, isPyWs c = false :=
  wordsAux_token_props cs [] (by intro x hx; cases hx) t ht

theorem getLast?_suffix (l₁ l₂ : Chars) (c : Char) (h : l₂.getLast? = some c) :
    (l₁ ++ l₂).getLast? = some c := by
  have hne : l₂ ≠ [] := by
    intro hh
    rw [hh] at h
    cases h
  rw [List.getLast?_append_of_ne_nil l₁ hne]
  exact h

theorem getLast?_cons_suffix (a : Char) (l : Chars) (c : Char)
    (h : l.getLast? = some c) : (a :: l).getLast? = some c :=
  getLast?_suffix [a] l c h

/-- C10: for every line at index at least 2 whose stripped split has at
least 5 fields, and every numeric rendering producing whitespace-free text,
the emitted line is the first two fields, the rendered bandwidth with Gbps,
the rendered latency with ms, and the fifth field, joined by single spaces
and terminated by a newline; splitting the emitted line yields exactly
those 5 fields, so fields beyond the fifth are dropped and the original
inter-field whitespace is normalized to single spaces. -/
theorem convert_topology_five_fields (renderBw renderLat : Chars → Chars)
    (lines : List Chars) (i : Nat) (line : Chars)
    (p0 p1 p2 p3 p4 : Chars) (rest : List Chars)
    (hline : lines[i]? = some line)
    (hi : 2 ≤ i)
    (hparts : pyWords (pyStrip line) = p0 :: p1 :: p2 :: p3 :: p4 :: rest)
    (hbw : ∀ c ∈ renderBw p2, isPyWs c = false)
    (hlat : ∀ c ∈ renderLat p3, isPyWs c = false) :
    (convertTopology renderBw renderLat lines)[i]? =
      some (p0 ++ ' ' :: p1 ++ ' ' :: renderBw p2 ++ "Gbps".data ++ ' ' ::
        renderLat p3 ++ "ms".data ++ ' ' :: p4 ++ ['\n']) ∧
    pyWords (p0 ++ ' ' :: p1 ++ ' ' :: renderBw p2 ++ "Gbps".data ++ ' ' ::
        renderLat p3 ++ "ms".data ++ ' ' :: p4 ++ ['\n']) =
      [p0, p1, renderBw p2 ++ "Gbps".data, renderLat p3 ++ "ms".data, p4] ∧
    (p0 ++ ' ' :: p1 ++ ' ' :: renderBw p2 ++ "Gbps".data ++ ' ' ::
        renderLat p3 ++ "ms".data ++ ' ' :: p4 ++ ['\n']).getLast? = some '\n' := by
  have hm0 : p0 ∈ pyWords (pyStrip line) := by rw [hparts]; simp
  have hm1 : p1 ∈ pyWords (pyStrip line) := by rw [hparts]; simp
  have hm4 : p4 ∈ pyWords (pyStrip line) := by rw [hparts]; simp
  obtain ⟨h0ne, h0w⟩ := pyWords_token_props (pyStrip line) p0 hm0
  obtain ⟨h1ne, h1w⟩ := pyWords_token_props (pyStrip line) p1 hm1
  obtain ⟨h4ne, h4w⟩ := pyWords_token_props (pyStrip line) p4 hm4
  have hgbps : ∀ x ∈ "Gbps".data, isPyWs x = false := by decide
  have hms : ∀ x ∈ "ms".data, isPyWs x = false := by decide
  have h3ne : renderBw p2 ++ "Gbps".data ≠ [] := by simp
  have h3w : ∀ c ∈ renderBw p2 ++ "Gbps".data, isPyWs c = false := by
    intro c hc
    rcases List.mem_append.1 hc with h | h
    · exact hbw c h
    · exact hgbps c h
  have hl3ne : renderLat p3 ++ "ms".data ≠ [] := by simp
  have hl3w : ∀ c ∈ renderLat p3 ++ "ms".data, isPyWs c = false := by
    intro c hc
    rcases List.mem_append.1 hc with h | h
    · exact hlat c h
    · exact hms c h
  have hnot2 : ¬ i < 2 := by omega
  have hout : convertLine renderBw renderLat i line =
      p0 ++ ' ' :: p1 ++ ' ' :: renderBw p2 ++ "Gbps".data ++ ' ' ::
        renderLat p3 ++ "ms".data ++ ' ' :: p4 ++ ['\n'] := by
    rw [convertLine, if_neg hnot2]
    simp only [hparts]
    rw [if_neg (by simp only [List.length_cons]; omega)]
    simp [List.getD]
  have hassoc : (p0 ++ ' ' :: p1 ++ ' ' :: renderBw p2 ++ "Gbps".data ++ ' ' ::
        renderLat p3 ++ "ms".data ++ ' ' :: p4 ++ ['\n'])
      = p0 ++ ' ' :: (p1 ++ ' ' :: ((renderBw p2 ++ "Gbps".data) ++ ' ' ::
        ((renderLat p3 ++ "ms".data) ++ ' ' :: (p4 ++ ['\n'])))) := by
    simp [List.append_assoc]
  refine ⟨?_, ?_, ?_⟩
  · unfold convertTopology
    rw [convertFrom_getElem renderBw renderLat lines 0 i, hline]
    show some (convertLine renderBw renderLat (0 + i) line) = _
    rw [Nat.zero_add, hout]
  · rw [hassoc, pyWords_sep p0 _ h0ne h0w, pyWords_sep p1 _ h1ne h1w,
      pyWords_sep _ _ h3ne h3w, pyWords_sep _ _ hl3ne hl3w,
      pyWords_newline_end p4 h4ne h4w]
  · rw [hassoc]
    refine getLast?_suffix p0 _ '\n' (getLast?_cons_suffix ' ' _ '\n'
      (getLast?_suffix p1 _ '\n' (getLast?_cons_suffix ' ' _ '\n'
      (getLast?_suffix (renderBw p2 ++ "Gbps".data) _ '\n'
      (getLast?_cons_suffix ' ' _ '\n'
      (getLast?_suffix (renderLat p3 ++ "ms".data) _ '\n'
      (getLast?_cons_suffix ' ' _ '\n'
      (getLast?_suffix p4 ['\n'] '\n' (by simp)))))))))

/-- C10 witness: a concrete line with six fields (the sixth is dropped) and
irregular whitespace, with concrete renderings, evaluated end to end. -/
theorem convert_topology_five_fields_witness :
    (([[], [], "a  b 5 6 0 x\n".data] : List Chars)[2]? =
        some ("a  b 5 6 0 x\n".data) ∧
      pyWords (pyStrip ("a  b 5 6 0 x\n".data)) =
        ["a".data, "b".data, "5".data, "6".data, "0".data, "x".data]) ∧
    (convertTopology (fun _ => "9".data) (fun _ => "7".data)
        [[], [], "a  b 5 6 0 x\n".data])[2]? = some ("a b 9Gbps 7ms 0\n".data) ∧
    pyWords ("a b 9Gbps 7ms 0\n".data) =
      ["a".data, "b".data, "9Gbps".data, "7ms".data, "0".data] ∧
    ("a b 9Gbps 7ms 0\n".data).getLast? = some '\n' := by
  have h := convert_topology_five_fields (fun _ => "9".data) (fun _ => "7".data)
    [[], [], "a  b 5 6 0 x\n".data] 2 ("a  b 5 6 0 x\n".data)
    "a".data "b".data "5".data "6".data "0".data ["x".data]
    (by decide) (by decide) (by decide) (by decide) (by decide)
  refine ⟨⟨by decide, by decide⟩, ?_, by decide, by decide⟩
  exact h.1.trans (by decide)

/-! ## The packet-level configuration patch (run_ns3 of src/simai/backends/ns3.py) -/

/-- Fuel-bounded helper for replaceAll; the fuel equals the input length,
which suffices because every step consumes at least one character. -/
def replaceAllFuel (pat rep : Chars) : Nat → Chars → Chars
  | 0, cs => cs
  | _ + 1, [] => []
  | fuel + 1, c :: cs =>
    if pat.isPrefixOf (c :: cs) && !pat.isEmpty then
      rep ++ replaceAllFuel pat rep fuel (cs.drop (pat.length - 1))
    else
      c :: replaceAllFuel pat rep fuel cs

/-- Modelled from the spec: the packet-level driver is specified to copy
the supplied configuration into the sandbox rewriting every occurrence of
the fixed absolute path /etc/astra-sim/simulation/ to the sandbox's own
path and leaving all other text unchanged.  The source statement meant to
do this (the re.sub call at lines 100-104 of src/simai/backends/ns3.py) is
missing the comma between its replacement argument and conf_text, so the
module does not parse and no patched configuration is ever produced; this
definition models the intended leftmost non-overlapping textual
substitution of re.sub on the literal pattern. -/
def replaceAll (pat rep cs : Chars) : Chars :=
  replaceAllFuel pat rep cs.length cs

/-- C7 (intended behaviour, modelled from the spec): on a configuration
holding two occurrences of the hardcoded absolute path, the intended patch
rewrites both to the sandbox path and leaves the surrounding text
unchanged.  The shipped code instead fails with a syntax error before any
patch happens. -/
theorem ns3_config_patch_intent :
    replaceAll ("/etc/astra-sim/simulation/".data) ("/tmp/sb/".data)
      ("FLOW /etc/astra-sim/simulation/flow1.txt TRACE /etc/astra-sim/simulation/trace1.txt\n".data)
      = ("FLOW /tmp/sb/flow1.txt TRACE /tmp/sb/trace1.txt\n".data) := by
  decide
